import Mathlib

/- Verification of the instruction-execution core of a small NES CPU emulator
   (src/main.rs).  Machine integers are modelled as `Nat`, with explicit
   `% 65536` wherever the source performs `u16` arithmetic that can wrap.
   Rust panics (`.unwrap()` on a failed opcode decode, the two `todo!()`
   arms of `write`, and slice indexing out of bounds) are modelled as the
   `RustPanic` error of an `Except` result: they abort the computation and
   produce no successor state.  Overflow of `+` / `+=` / `-=` on `u16` is
   modelled with two's-complement wraparound (the overflow-checks-off
   semantics of a release build). -/

/-- Mirrors `struct StatusFlags` of the source: five independent booleans. -/
structure StatusFlags where
  carry_flag : Bool
  zero_flag : Bool
  interrupt_disable_flag : Bool
  overflow_flag : Bool
  negative_flag : Bool
  deriving DecidableEq

/-- Mirrors `struct Cpu`.  Both `program_counter` and `stack_pointer` are
declared `u16` in the source (`stack_pointer` is *not* a `u8`); registers
`reg_a`, `reg_x`, `reg_y` are `u8`. -/
structure Cpu where
  flags : StatusFlags
  program_counter : Nat
  stack_pointer : Nat
  halted : Bool
  reg_a : Nat
  reg_x : Nat
  reg_y : Nat
  deriving DecidableEq

/-- Mirrors `struct Emulator`: the `BytesMut` buffers become lists of byte
values.  The `rom_path` string, used only by the file-loading plumbing of
`reset`, is omitted. -/
structure Emulator where
  ram : List Nat
  rom : List Nat
  header : List Nat
  cpu : Cpu
  deriving DecidableEq

/-- Mirrors `enum Opcode` (18 variants). -/
inductive Opcode where
  | HLT
  | PHA
  | PLA
  | BPL
  | BMI
  | BNE
  | BEQ
  | LDY_Immediate
  | LDX_Immediate
  | LDA_ZeroPage
  | LDA_Immediate
  | LDA_Absolute
  | STA_ZeroPage
  | STA_Absolute
  | STX_ZeroPage
  | STX_Absolute
  | STY_ZeroPage
  | STY_Absolute
  deriving DecidableEq

/-- The Rust panics that the source can actually raise: `unwrapFailed b`
models `Opcode::try_from(b).unwrap()` aborting on a byte `b` outside the
opcode table; `todoRomWrite` / `todoReservedWrite` model the two `todo!()`
arms of `write`; `indexOutOfBounds` models a panicking slice access. -/
inductive RustPanic where
  | unwrapFailed (b : Nat)
  | indexOutOfBounds
  | todoRomWrite
  | todoReservedWrite
  deriving DecidableEq

/-- Mirrors the `TryFromPrimitive` instance derived for `Opcode`: the byte
values are the discriminants written in the source enum. -/
def Opcode.try_from (b : Nat) : Option Opcode :=
  if b = 0x02 then some .HLT
  else if b = 0x48 then some .PHA
  else if b = 0x68 then some .PLA
  else if b = 0x10 then some .BPL
  else if b = 0x30 then some .BMI
  else if b = 0xD0 then some .BNE
  else if b = 0xF0 then some .BEQ
  else if b = 0xA0 then some .LDY_Immediate
  else if b = 0xA2 then some .LDX_Immediate
  else if b = 0xA5 then some .LDA_ZeroPage
  else if b = 0xA9 then some .LDA_Immediate
  else if b = 0xAD then some .LDA_Absolute
  else if b = 0x85 then some .STA_ZeroPage
  else if b = 0x8D then some .STA_Absolute
  else if b = 0x86 then some .STX_ZeroPage
  else if b = 0x8E then some .STX_Absolute
  else if b = 0x84 then some .STY_ZeroPage
  else if b = 0x8C then some .STY_Absolute
  else none

/-- Mirrors `Emulator::new`: `ram` is resized to the requested size filled
with `0xFF`, `rom` is zeroed, the 16-byte header is zeroed, flags are all
clear except `interrupt_disable_flag`, and all registers start at 0. -/
def Emulator.new (ram rom : Nat) : Emulator :=
  { ram := List.replicate ram 0xFF
    rom := List.replicate rom 0
    header := List.replicate 16 0
    cpu :=
      { flags :=
          { carry_flag := false
            zero_flag := false
            interrupt_disable_flag := true
            overflow_flag := false
            negative_flag := false }
        program_counter := 0
        stack_pointer := 0
        halted := false
        reg_a := 0
        reg_x := 0
        reg_y := 0 } }

/-- Mirrors `Emulator::read`: addresses below `0x800` index `ram`,
addresses at or above `0x8000` index `rom` shifted down by `0x8000`, and
the middle region reads as `0`.  An out-of-bounds slice access (only
possible when the buffers are smaller than the decoded regions) is the
`indexOutOfBounds` panic. -/
def Emulator.read (e : Emulator) (address : Nat) : Except RustPanic Nat :=
  if address < 0x800 then
    match e.ram.get? address with
    | some v => .ok v
    | none => .error .indexOutOfBounds
  else if 0x8000 ≤ address then
    match e.rom.get? (address - 0x8000) with
    | some v => .ok v
    | none => .error .indexOutOfBounds
  else .ok 0

/-- Mirrors `Emulator::write`: only addresses below `0x800` are written
(into `ram`); the ROM region (`≥ 0x8000`) and the reserved middle region
both hit a `todo!()`, i.e. a panic. -/
def Emulator.write (e : Emulator) (address value : Nat) : Except RustPanic Emulator :=
  if address < 0x800 then
    if address < e.ram.length then .ok { e with ram := e.ram.set address value }
    else .error .indexOutOfBounds
  else if 0x8000 ≤ address then .error .todoRomWrite
  else .error .todoReservedWrite

/-- Models `self.cpu.program_counter += 1` (u16 increment, wrapping). -/
def Emulator.incPC (e : Emulator) : Emulator :=
  { e with cpu := { e.cpu with program_counter := (e.cpu.program_counter + 1) % 65536 } }

/-- Mirrors `Emulator::push`: writes `value` at the address
`self.cpu.stack_pointer` taken as a full 16-bit address (note: *no*
`0x100` stack-page offset here), then decrements `stack_pointer` by 1
with 16-bit wraparound (`+ 65535` is `- 1` modulo `2^16`). -/
def Emulator.push (e : Emulator) (value : Nat) : Except RustPanic Emulator :=
  match e.write e.cpu.stack_pointer value with
  | .error p => .error p
  | .ok ew =>
      .ok { ew with cpu := { ew.cpu with
              stack_pointer := (ew.cpu.stack_pointer + 65535) % 65536 } }

/-- Mirrors `Emulator::pull`: increments `stack_pointer` by 1 (16-bit,
wrapping), then reads from `0x100 + stack_pointer` (u16 addition, hence
the outer `% 65536`) and returns the byte together with the new state. -/
def Emulator.pull (e : Emulator) : Except RustPanic (Emulator × Nat) :=
  let e1 := { e with cpu := { e.cpu with
                stack_pointer := (e.cpu.stack_pointer + 1) % 65536 } }
  match e1.read ((0x100 + e1.cpu.stack_pointer) % 65536) with
  | .error p => .error p
  | .ok v => .ok (e1, v)

/-- Mirrors `Emulator::emulate_cpu` with the mutated state made explicit.
The returned `Nat` is the final value of the *local* variable `cycles`
(initialised to 0 and assigned in most match arms); the Rust function's
signature is `fn emulate_cpu(&mut self)`, so that value is dropped at the
end of the function body and is never returned to any caller — see
`Emulator.emulate_cpu_ret` for the caller-visible function.  The decode
failure of `Opcode::try_from(..).unwrap()` is the `unwrapFailed` panic.
The source's `_ => todo!()` match arm is unreachable (all 18 enum
variants have explicit arms) and therefore has no counterpart here. -/
def Emulator.emulate_cpu (e0 : Emulator) : Except RustPanic (Emulator × Nat) :=
  match e0.read e0.cpu.program_counter with
  | .error p => .error p
  | .ok b =>
    match Opcode.try_from b with
    | none => .error (.unwrapFailed b)
    | some opc =>
      let e := e0.incPC
      match opc with
      | .HLT => .ok ({ e with cpu := { e.cpu with halted := true } }, 0)
      | .LDY_Immediate =>
        match e.read e.cpu.program_counter with
        | .error p => .error p
        | .ok v => .ok (({ e with cpu := { e.cpu with reg_y := v } }).incPC, 2)
      | .LDX_Immediate =>
        match e.read e.cpu.program_counter with
        | .error p => .error p
        | .ok v => .ok (({ e with cpu := { e.cpu with reg_x := v } }).incPC, 2)
      | .LDA_Immediate =>
        match e.read e.cpu.program_counter with
        | .error p => .error p
        | .ok v =>
          .ok (({ e with cpu := { e.cpu with
                    reg_a := v
                    flags := { e.cpu.flags with
                      zero_flag := decide (v = 0)
                      negative_flag := decide (127 < v) } } }).incPC, 2)
      | .LDA_ZeroPage =>
        match e.read e.cpu.program_counter with
        | .error p => .error p
        | .ok operand =>
          match e.read operand with
          | .error p => .error p
          | .ok w => .ok (({ e with cpu := { e.cpu with reg_a := w } }).incPC, 3)
      | .LDA_Absolute =>
        match e.read e.cpu.program_counter with
        | .error p => .error p
        | .ok l =>
          let e2 := e.incPC
          match e2.read e2.cpu.program_counter with
          | .error p => .error p
          | .ok h =>
            let e3 := e2.incPC
            match e3.read ((h * 256 + l) % 65536) with
            | .error p => .error p
            | .ok w => .ok ({ e3 with cpu := { e3.cpu with reg_a := w } }, 4)
      | .STY_ZeroPage =>
        match e.read e.cpu.program_counter with
        | .error p => .error p
        | .ok operand =>
          match e.write operand e.cpu.reg_y with
          | .error p => .error p
          | .ok ew => .ok (ew.incPC, 3)
      | .STX_ZeroPage =>
        match e.read e.cpu.program_counter with
        | .error p => .error p
        | .ok operand =>
          match e.write operand e.cpu.reg_x with
          | .error p => .error p
          | .ok ew => .ok (ew.incPC, 3)
      | .STA_ZeroPage =>
        match e.read e.cpu.program_counter with
        | .error p => .error p
        | .ok operand =>
          match e.write operand e.cpu.reg_a with
          | .error p => .error p
          | .ok ew => .ok (ew.incPC, 3)
      | .STY_Absolute =>
        match e.read e.cpu.program_counter with
        | .error p => .error p
        | .ok l =>
          let e2 := e.incPC
          match e2.read e2.cpu.program_counter with
          | .error p => .error p
          | .ok h =>
            let e3 := e2.incPC
            match e3.write ((h * 256 + l) % 65536) e3.cpu.reg_y with
            | .error p => .error p
            | .ok ew => .ok (ew, 4)
      | .STX_Absolute =>
        match e.read e.cpu.program_counter with
        | .error p => .error p
        | .ok l =>
          let e2 := e.incPC
          match e2.read e2.cpu.program_counter with
          | .error p => .error p
          | .ok h =>
            let e3 := e2.incPC
            match e3.write ((h * 256 + l) % 65536) e3.cpu.reg_x with
            | .error p => .error p
            | .ok ew => .ok (ew, 4)
      | .STA_Absolute =>
        match e.read e.cpu.program_counter with
        | .error p => .error p
        | .ok l =>
          let e2 := e.incPC
          match e2.read e2.cpu.program_counter with
          | .error p => .error p
          | .ok h =>
            let e3 := e2.incPC
            match e3.write ((h * 256 + l) % 65536) e3.cpu.reg_a with
            | .error p => .error p
            | .ok ew => .ok (ew, 4)
      | .PHA =>
        match e.push e.cpu.reg_a with
        | .error p => .error p
        | .ok ew => .ok (ew, 3)
      | .PLA =>
        match e.pull with
        | .error p => .error p
        | .ok (e1, v) =>
          .ok ({ e1 with cpu := { e1.cpu with
                   reg_a := v
                   flags := { e1.cpu.flags with
                     zero_flag := decide (v = 0)
                     negative_flag := decide (0x80 ≤ v) } } }, 4)
      | .BNE =>
        match e.read e.cpu.program_counter with
        | .error p => .error p
        | .ok op =>
          let e2 := e.incPC
          if !e2.cpu.flags.zero_flag then
            .ok ({ e2 with cpu := { e2.cpu with program_counter :=
                    (e2.cpu.program_counter +
                      (if 127 < op then op + 65280 else op)) % 65536 } }, 3)
          else .ok (e2, 2)
      | .BEQ =>
        match e.read e.cpu.program_counter with
        | .error p => .error p
        | .ok op =>
          let e2 := e.incPC
          if e2.cpu.flags.zero_flag then
            .ok ({ e2 with cpu := { e2.cpu with program_counter :=
                    (e2.cpu.program_counter +
                      (if 127 < op then op + 65280 else op)) % 65536 } }, 3)
          else .ok (e2, 2)
      | .BPL =>
        match e.read e.cpu.program_counter with
        | .error p => .error p
        | .ok op =>
          let e2 := e.incPC
          if !e2.cpu.flags.negative_flag then
            .ok ({ e2 with cpu := { e2.cpu with program_counter :=
                    (e2.cpu.program_counter +
                      (if 127 < op then op + 65280 else op)) % 65536 } }, 3)
          else .ok (e2, 2)
      | .BMI =>
        match e.read e.cpu.program_counter with
        | .error p => .error p
        | .ok op =>
          let e2 := e.incPC
          if e2.cpu.flags.negative_flag then
            .ok ({ e2 with cpu := { e2.cpu with program_counter :=
                    (e2.cpu.program_counter +
                      (if 127 < op then op + 65280 else op)) % 65536 } }, 3)
          else .ok (e2, 2)

/-- The caller-visible interface of `fn emulate_cpu(&mut self)`: the local
`cycles` value is dropped, only the state mutation is observable. -/
def Emulator.emulate_cpu_ret (e : Emulator) : Except RustPanic Emulator :=
  match e.emulate_cpu with
  | .error p => .error p
  | .ok (e', _) => .ok e'

/-- Mirrors `Emulator::run` (`while !self.cpu.halted { self.emulate_cpu(); }`),
made terminating with an explicit fuel parameter: `runFuel n e` performs at
most `n` iterations of the loop body and stops early exactly when the loop
guard fails.  `run` terminates with final state `f` if and only if
`runFuel n e = .ok f` with `f.cpu.halted = true` for some fuel `n`. -/
def Emulator.runFuel : Nat → Emulator → Except RustPanic Emulator
  | 0, e => .ok e
  | Nat.succ n, e =>
    if e.cpu.halted then .ok e
    else
      match e.emulate_cpu with
      | .error p => .error p
      | .ok (e', _) => Emulator.runFuel n e'

/-- Well-formedness of the buffers, as established by the only constructor
call in the program, `Emulator::new(0x800, 0x8000, ..)` in `main`: the
`ram` buffer backs the whole decoded RAM region and `rom` backs the whole
decoded ROM region. -/
def Emulator.WF (e : Emulator) : Prop :=
  e.ram.length = 0x800 ∧ e.rom.length = 0x8000

/- Step-inversion lemmas: for each opcode, a successful `emulate_cpu` step
   determines the successor state and cycle value, and conversely implies
   that every intermediate memory access succeeded. -/

theorem two_step_mod (a : Nat) : ((a + 1) % 65536 + 1) % 65536 = (a + 2) % 65536 := by
  omega

theorem three_step_mod (a : Nat) : ((a + 2) % 65536 + 1) % 65536 = (a + 3) % 65536 := by
  omega

theorem read_setCpu (e : Emulator) (c : Cpu) (a : Nat) :
    (Emulator.mk e.ram e.rom e.header c).read a = e.read a := rfl


theorem inv_HLT (e e' : Emulator) (c b : Nat)
    (hb : e.read e.cpu.program_counter = .ok b)
    (hd : Opcode.try_from b = some .HLT)
    (hs : e.emulate_cpu = .ok (e', c)) :
    c = 0 ∧ e' = { e with cpu := { e.cpu with
      program_counter := (e.cpu.program_counter + 1) % 65536
      halted := true } } := by
  simp only [Emulator.emulate_cpu, hb, hd, Emulator.incPC] at hs
  simp only [Except.ok.injEq, Prod.mk.injEq] at hs
  obtain ⟨h1, h2⟩ := hs
  exact ⟨h2.symm, h1.symm⟩


theorem inv_LDY_Immediate (e e' : Emulator) (c b : Nat)
    (hb : e.read e.cpu.program_counter = .ok b)
    (hd : Opcode.try_from b = some .LDY_Immediate)
    (hs : e.emulate_cpu = .ok (e', c)) :
    ∃ v, e.read ((e.cpu.program_counter + 1) % 65536) = .ok v ∧ c = 2 ∧
      e' = { e with cpu := { e.cpu with
        program_counter := (e.cpu.program_counter + 2) % 65536
        reg_y := v } } := by
  simp only [Emulator.emulate_cpu, hb, hd, Emulator.incPC, read_setCpu] at hs
  cases hv : e.read ((e.cpu.program_counter + 1) % 65536) with
  | error p => rw [hv] at hs; simp at hs
  | ok v =>
    rw [hv] at hs
    simp only [Except.ok.injEq, Prod.mk.injEq] at hs
    obtain ⟨h1, h2⟩ := hs
    refine ⟨v, rfl, h2.symm, ?_⟩
    rw [← h1]
    simp only [Emulator.incPC]
    try simp only [Emulator.mk.injEq, Cpu.mk.injEq, and_true, true_and]
    try omega


theorem inv_LDX_Immediate (e e' : Emulator) (c b : Nat)
    (hb : e.read e.cpu.program_counter = .ok b)
    (hd : Opcode.try_from b = some .LDX_Immediate)
    (hs : e.emulate_cpu = .ok (e', c)) :
    ∃ v, e.read ((e.cpu.program_counter + 1) % 65536) = .ok v ∧ c = 2 ∧
      e' = { e with cpu := { e.cpu with
        program_counter := (e.cpu.program_counter + 2) % 65536
        reg_x := v } } := by
  simp only [Emulator.emulate_cpu, hb, hd, Emulator.incPC, read_setCpu] at hs
  cases hv : e.read ((e.cpu.program_counter + 1) % 65536) with
  | error p => rw [hv] at hs; simp at hs
  | ok v =>
    rw [hv] at hs
    simp only [Except.ok.injEq, Prod.mk.injEq] at hs
    obtain ⟨h1, h2⟩ := hs
    refine ⟨v, rfl, h2.symm, ?_⟩
    rw [← h1]
    simp only [Emulator.incPC]
    try simp only [Emulator.mk.injEq, Cpu.mk.injEq, and_true, true_and]
    try omega


theorem inv_LDA_Immediate (e e' : Emulator) (c b : Nat)
    (hb : e.read e.cpu.program_counter = .ok b)
    (hd : Opcode.try_from b = some .LDA_Immediate)
    (hs : e.emulate_cpu = .ok (e', c)) :
    ∃ v, e.read ((e.cpu.program_counter + 1) % 65536) = .ok v ∧ c = 2 ∧
      e' = { e with cpu := { e.cpu with
        program_counter := (e.cpu.program_counter + 2) % 65536
        reg_a := v
        flags := { e.cpu.flags with
          zero_flag := decide (v = 0)
          negative_flag := decide (127 < v) } } } := by
  simp only [Emulator.emulate_cpu, hb, hd, Emulator.incPC, read_setCpu] at hs
  cases hv : e.read ((e.cpu.program_counter + 1) % 65536) with
  | error p => rw [hv] at hs; simp at hs
  | ok v =>
    rw [hv] at hs
    simp only [Except.ok.injEq, Prod.mk.injEq] at hs
    obtain ⟨h1, h2⟩ := hs
    refine ⟨v, rfl, h2.symm, ?_⟩
    rw [← h1]
    simp only [Emulator.incPC]
    try simp only [Emulator.mk.injEq, Cpu.mk.injEq, and_true, true_and]
    try omega


theorem inv_LDA_ZeroPage (e e' : Emulator) (c b : Nat)
    (hb : e.read e.cpu.program_counter = .ok b)
    (hd : Opcode.try_from b = some .LDA_ZeroPage)
    (hs : e.emulate_cpu = .ok (e', c)) :
    ∃ v w, e.read ((e.cpu.program_counter + 1) % 65536) = .ok v ∧
      e.read v = .ok w ∧ c = 3 ∧
      e' = { e with cpu := { e.cpu with
        program_counter := (e.cpu.program_counter + 2) % 65536
        reg_a := w } } := by
  simp only [Emulator.emulate_cpu, hb, hd, Emulator.incPC, read_setCpu] at hs
  cases hv : e.read ((e.cpu.program_counter + 1) % 65536) with
  | error p => rw [hv] at hs; simp at hs
  | ok v =>
    rw [hv] at hs
    simp only [] at hs
    cases hw : e.read v with
    | error p => rw [hw] at hs; simp at hs
    | ok w =>
      rw [hw] at hs
      simp only [Except.ok.injEq, Prod.mk.injEq] at hs
      obtain ⟨h1, h2⟩ := hs
      refine ⟨v, w, rfl, hw, h2.symm, ?_⟩
      rw [← h1]
      simp only [Emulator.incPC]
      try simp only [Emulator.mk.injEq, Cpu.mk.injEq, and_true, true_and]
      try omega


theorem inv_LDA_Absolute (e e' : Emulator) (c b : Nat)
    (hb : e.read e.cpu.program_counter = .ok b)
    (hd : Opcode.try_from b = some .LDA_Absolute)
    (hs : e.emulate_cpu = .ok (e', c)) :
    ∃ l h w, e.read ((e.cpu.program_counter + 1) % 65536) = .ok l ∧
      e.read ((e.cpu.program_counter + 2) % 65536) = .ok h ∧
      e.read ((h * 256 + l) % 65536) = .ok w ∧ c = 4 ∧
      e' = { e with cpu := { e.cpu with
        program_counter := (e.cpu.program_counter + 3) % 65536
        reg_a := w } } := by
  simp only [Emulator.emulate_cpu, hb, hd, Emulator.incPC, read_setCpu, two_step_mod] at hs
  cases hl : e.read ((e.cpu.program_counter + 1) % 65536) with
  | error p => rw [hl] at hs; simp at hs
  | ok l =>
    rw [hl] at hs
    simp only [] at hs
    cases hh : e.read ((e.cpu.program_counter + 2) % 65536) with
    | error p => rw [hh] at hs; simp at hs
    | ok h =>
      rw [hh] at hs
      simp only [] at hs
      cases hw : e.read ((h * 256 + l) % 65536) with
      | error p => rw [hw] at hs; simp at hs
      | ok w =>
        rw [hw] at hs
        simp only [Except.ok.injEq, Prod.mk.injEq] at hs
        obtain ⟨h1, h2⟩ := hs
        refine ⟨l, h, w, rfl, rfl, hw, h2.symm, ?_⟩
        rw [← h1]
        try simp only [Emulator.mk.injEq, Cpu.mk.injEq, and_true, true_and]
        try omega


theorem inv_STA_ZeroPage (e e' : Emulator) (c b : Nat)
    (hb : e.read e.cpu.program_counter = .ok b)
    (hd : Opcode.try_from b = some .STA_ZeroPage)
    (hs : e.emulate_cpu = .ok (e', c)) :
    ∃ v, e.read ((e.cpu.program_counter + 1) % 65536) = .ok v ∧
      v < 0x800 ∧ v < e.ram.length ∧ c = 3 ∧
      e' = { e with
        ram := e.ram.set v e.cpu.reg_a
        cpu := { e.cpu with
               program_counter := (e.cpu.program_counter + 2) % 65536 } } := by
  simp only [Emulator.emulate_cpu, hb, hd, Emulator.incPC, read_setCpu, Emulator.write] at hs
  cases hv : e.read ((e.cpu.program_counter + 1) % 65536) with
  | error p => rw [hv] at hs; simp at hs
  | ok v =>
    rw [hv] at hs
    simp only [] at hs
    by_cases h8 : v < 0x800
    · by_cases hlen : v < e.ram.length
      · rw [if_pos h8, if_pos hlen] at hs
        simp only [Emulator.incPC] at hs
        simp only [Except.ok.injEq, Prod.mk.injEq] at hs
        obtain ⟨h1, h2⟩ := hs
        refine ⟨v, rfl, h8, hlen, h2.symm, ?_⟩
        rw [← h1]
        try simp only [Emulator.mk.injEq, Cpu.mk.injEq, and_true, true_and]
        try omega
      · rw [if_pos h8, if_neg hlen] at hs; simp at hs
    · rw [if_neg h8] at hs
      by_cases h16 : 0x8000 ≤ v
      · rw [if_pos h16] at hs; simp at hs
      · rw [if_neg h16] at hs; simp at hs


theorem inv_STX_ZeroPage (e e' : Emulator) (c b : Nat)
    (hb : e.read e.cpu.program_counter = .ok b)
    (hd : Opcode.try_from b = some .STX_ZeroPage)
    (hs : e.emulate_cpu = .ok (e', c)) :
    ∃ v, e.read ((e.cpu.program_counter + 1) % 65536) = .ok v ∧
      v < 0x800 ∧ v < e.ram.length ∧ c = 3 ∧
      e' = { e with
        ram := e.ram.set v e.cpu.reg_x
        cpu := { e.cpu with
               program_counter := (e.cpu.program_counter + 2) % 65536 } } := by
  simp only [Emulator.emulate_cpu, hb, hd, Emulator.incPC, read_setCpu, Emulator.write] at hs
  cases hv : e.read ((e.cpu.program_counter + 1) % 65536) with
  | error p => rw [hv] at hs; simp at hs
  | ok v =>
    rw [hv] at hs
    simp only [] at hs
    by_cases h8 : v < 0x800
    · by_cases hlen : v < e.ram.length
      · rw [if_pos h8, if_pos hlen] at hs
        simp only [Emulator.incPC] at hs
        simp only [Except.ok.injEq, Prod.mk.injEq] at hs
        obtain ⟨h1, h2⟩ := hs
        refine ⟨v, rfl, h8, hlen, h2.symm, ?_⟩
        rw [← h1]
        try simp only [Emulator.mk.injEq, Cpu.mk.injEq, and_true, true_and]
        try omega
      · rw [if_pos h8, if_neg hlen] at hs; simp at hs
    · rw [if_neg h8] at hs
      by_cases h16 : 0x8000 ≤ v
      · rw [if_pos h16] at hs; simp at hs
      · rw [if_neg h16] at hs; simp at hs


theorem inv_STY_ZeroPage (e e' : Emulator) (c b : Nat)
    (hb : e.read e.cpu.program_counter = .ok b)
    (hd : Opcode.try_from b = some .STY_ZeroPage)
    (hs : e.emulate_cpu = .ok (e', c)) :
    ∃ v, e.read ((e.cpu.program_counter + 1) % 65536) = .ok v ∧
      v < 0x800 ∧ v < e.ram.length ∧ c = 3 ∧
      e' = { e with
        ram := e.ram.set v e.cpu.reg_y
        cpu := { e.cpu with
               program_counter := (e.cpu.program_counter + 2) % 65536 } } := by
  simp only [Emulator.emulate_cpu, hb, hd, Emulator.incPC, read_setCpu, Emulator.write] at hs
  cases hv : e.read ((e.cpu.program_counter + 1) % 65536) with
  | error p => rw [hv] at hs; simp at hs
  | ok v =>
    rw [hv] at hs
    simp only [] at hs
    by_cases h8 : v < 0x800
    · by_cases hlen : v < e.ram.length
      · rw [if_pos h8, if_pos hlen] at hs
        simp only [Emulator.incPC] at hs
        simp only [Except.ok.injEq, Prod.mk.injEq] at hs
        obtain ⟨h1, h2⟩ := hs
        refine ⟨v, rfl, h8, hlen, h2.symm, ?_⟩
        rw [← h1]
        try simp only [Emulator.mk.injEq, Cpu.mk.injEq, and_true, true_and]
        try omega
      · rw [if_pos h8, if_neg hlen] at hs; simp at hs
    · rw [if_neg h8] at hs
      by_cases h16 : 0x8000 ≤ v
      · rw [if_pos h16] at hs; simp at hs
      · rw [if_neg h16] at hs; simp at hs


theorem inv_STA_Absolute (e e' : Emulator) (c b : Nat)
    (hb : e.read e.cpu.program_counter = .ok b)
    (hd : Opcode.try_from b = some .STA_Absolute)
    (hs : e.emulate_cpu = .ok (e', c)) :
    ∃ l h, e.read ((e.cpu.program_counter + 1) % 65536) = .ok l ∧
      e.read ((e.cpu.program_counter + 2) % 65536) = .ok h ∧
      (h * 256 + l) % 65536 < 0x800 ∧ (h * 256 + l) % 65536 < e.ram.length ∧ c = 4 ∧
      e' = { e with
        ram := e.ram.set ((h * 256 + l) % 65536) e.cpu.reg_a
        cpu := { e.cpu with
               program_counter := (e.cpu.program_counter + 3) % 65536 } } := by
  simp only [Emulator.emulate_cpu, hb, hd, Emulator.incPC, read_setCpu, two_step_mod,
    Emulator.write] at hs
  cases hl : e.read ((e.cpu.program_counter + 1) % 65536) with
  | error p => rw [hl] at hs; simp at hs
  | ok l =>
    rw [hl] at hs
    simp only [] at hs
    cases hh : e.read ((e.cpu.program_counter + 2) % 65536) with
    | error p => rw [hh] at hs; simp at hs
    | ok h =>
      rw [hh] at hs
      simp only [] at hs
      by_cases h8 : (h * 256 + l) % 65536 < 0x800
      · by_cases hlen : (h * 256 + l) % 65536 < e.ram.length
        · rw [if_pos h8, if_pos hlen] at hs
          simp only [Except.ok.injEq, Prod.mk.injEq] at hs
          obtain ⟨h1, h2⟩ := hs
          refine ⟨l, h, rfl, rfl, h8, hlen, h2.symm, ?_⟩
          rw [← h1]
          try simp only [Emulator.mk.injEq, Cpu.mk.injEq, and_true, true_and]
          try omega
        · rw [if_pos h8, if_neg hlen] at hs; simp at hs
      · rw [if_neg h8] at hs
        by_cases h16 : 0x8000 ≤ (h * 256 + l) % 65536
        · rw [if_pos h16] at hs; simp at hs
        · rw [if_neg h16] at hs; simp at hs


theorem inv_STX_Absolute (e e' : Emulator) (c b : Nat)
    (hb : e.read e.cpu.program_counter = .ok b)
    (hd : Opcode.try_from b = some .STX_Absolute)
    (hs : e.emulate_cpu = .ok (e', c)) :
    ∃ l h, e.read ((e.cpu.program_counter + 1) % 65536) = .ok l ∧
      e.read ((e.cpu.program_counter + 2) % 65536) = .ok h ∧
      (h * 256 + l) % 65536 < 0x800 ∧ (h * 256 + l) % 65536 < e.ram.length ∧ c = 4 ∧
      e' = { e with
        ram := e.ram.set ((h * 256 + l) % 65536) e.cpu.reg_x
        cpu := { e.cpu with
               program_counter := (e.cpu.program_counter + 3) % 65536 } } := by
  simp only [Emulator.emulate_cpu, hb, hd, Emulator.incPC, read_setCpu, two_step_mod,
    Emulator.write] at hs
  cases hl : e.read ((e.cpu.program_counter + 1) % 65536) with
  | error p => rw [hl] at hs; simp at hs
  | ok l =>
    rw [hl] at hs
    simp only [] at hs
    cases hh : e.read ((e.cpu.program_counter + 2) % 65536) with
    | error p => rw [hh] at hs; simp at hs
    | ok h =>
      rw [hh] at hs
      simp only [] at hs
      by_cases h8 : (h * 256 + l) % 65536 < 0x800
      · by_cases hlen : (h * 256 + l) % 65536 < e.ram.length
        · rw [if_pos h8, if_pos hlen] at hs
          simp only [Except.ok.injEq, Prod.mk.injEq] at hs
          obtain ⟨h1, h2⟩ := hs
          refine ⟨l, h, rfl, rfl, h8, hlen, h2.symm, ?_⟩
          rw [← h1]
          try simp only [Emulator.mk.injEq, Cpu.mk.injEq, and_true, true_and]
          try omega
        · rw [if_pos h8, if_neg hlen] at hs; simp at hs
      · rw [if_neg h8] at hs
        by_cases h16 : 0x8000 ≤ (h * 256 + l) % 65536
        · rw [if_pos h16] at hs; simp at hs
        · rw [if_neg h16] at hs; simp at hs


theorem inv_STY_Absolute (e e' : Emulator) (c b : Nat)
    (hb : e.read e.cpu.program_counter = .ok b)
    (hd : Opcode.try_from b = some .STY_Absolute)
    (hs : e.emulate_cpu = .ok (e', c)) :
    ∃ l h, e.read ((e.cpu.program_counter + 1) % 65536) = .ok l ∧
      e.read ((e.cpu.program_counter + 2) % 65536) = .ok h ∧
      (h * 256 + l) % 65536 < 0x800 ∧ (h * 256 + l) % 65536 < e.ram.length ∧ c = 4 ∧
      e' = { e with
        ram := e.ram.set ((h * 256 + l) % 65536) e.cpu.reg_y
        cpu := { e.cpu with
               program_counter := (e.cpu.program_counter + 3) % 65536 } } := by
  simp only [Emulator.emulate_cpu, hb, hd, Emulator.incPC, read_setCpu, two_step_mod,
    Emulator.write] at hs
  cases hl : e.read ((e.cpu.program_counter + 1) % 65536) with
  | error p => rw [hl] at hs; simp at hs
  | ok l =>
    rw [hl] at hs
    simp only [] at hs
    cases hh : e.read ((e.cpu.program_counter + 2) % 65536) with
    | error p => rw [hh] at hs; simp at hs
    | ok h =>
      rw [hh] at hs
      simp only [] at hs
      by_cases h8 : (h * 256 + l) % 65536 < 0x800
      · by_cases hlen : (h * 256 + l) % 65536 < e.ram.length
        · rw [if_pos h8, if_pos hlen] at hs
          simp only [Except.ok.injEq, Prod.mk.injEq] at hs
          obtain ⟨h1, h2⟩ := hs
          refine ⟨l, h, rfl, rfl, h8, hlen, h2.symm, ?_⟩
          rw [← h1]
          try simp only [Emulator.mk.injEq, Cpu.mk.injEq, and_true, true_and]
          try omega
        · rw [if_pos h8, if_neg hlen] at hs; simp at hs
      · rw [if_neg h8] at hs
        by_cases h16 : 0x8000 ≤ (h * 256 + l) % 65536
        · rw [if_pos h16] at hs; simp at hs
        · rw [if_neg h16] at hs; simp at hs


theorem inv_PHA (e e' : Emulator) (c b : Nat)
    (hb : e.read e.cpu.program_counter = .ok b)
    (hd : Opcode.try_from b = some .PHA)
    (hs : e.emulate_cpu = .ok (e', c)) :
    e.cpu.stack_pointer < 0x800 ∧ e.cpu.stack_pointer < e.ram.length ∧ c = 3 ∧
      e' = { e with
        ram := e.ram.set e.cpu.stack_pointer e.cpu.reg_a
        cpu := { e.cpu with
               program_counter := (e.cpu.program_counter + 1) % 65536
               stack_pointer := (e.cpu.stack_pointer + 65535) % 65536 } } := by
  simp only [Emulator.emulate_cpu, hb, hd, Emulator.incPC, Emulator.push,
    Emulator.write] at hs
  by_cases h8 : e.cpu.stack_pointer < 0x800
  · by_cases hlen : e.cpu.stack_pointer < e.ram.length
    · rw [if_pos h8, if_pos hlen] at hs
      simp only [Except.ok.injEq, Prod.mk.injEq] at hs
      obtain ⟨h1, h2⟩ := hs
      refine ⟨h8, hlen, h2.symm, ?_⟩
      rw [← h1]
      try simp only [Emulator.mk.injEq, Cpu.mk.injEq, and_true, true_and]
      try omega
    · rw [if_pos h8, if_neg hlen] at hs; simp at hs
  · rw [if_neg h8] at hs
    by_cases h16 : 0x8000 ≤ e.cpu.stack_pointer
    · rw [if_pos h16] at hs; simp at hs
    · rw [if_neg h16] at hs; simp at hs


theorem inv_PLA (e e' : Emulator) (c b : Nat)
    (hb : e.read e.cpu.program_counter = .ok b)
    (hd : Opcode.try_from b = some .PLA)
    (hs : e.emulate_cpu = .ok (e', c)) :
    ∃ v, e.read ((0x100 + (e.cpu.stack_pointer + 1) % 65536) % 65536) = .ok v ∧ c = 4 ∧
      e' = { e with cpu := { e.cpu with
        program_counter := (e.cpu.program_counter + 1) % 65536
        stack_pointer := (e.cpu.stack_pointer + 1) % 65536
        reg_a := v
        flags := { e.cpu.flags with
          zero_flag := decide (v = 0)
          negative_flag := decide (0x80 ≤ v) } } } := by
  simp only [Emulator.emulate_cpu, hb, hd, Emulator.incPC, Emulator.pull, read_setCpu] at hs
  cases hv : e.read ((0x100 + (e.cpu.stack_pointer + 1) % 65536) % 65536) with
  | error p => rw [hv] at hs; simp at hs
  | ok v =>
    rw [hv] at hs
    simp only [Except.ok.injEq, Prod.mk.injEq] at hs
    obtain ⟨h1, h2⟩ := hs
    refine ⟨v, rfl, h2.symm, ?_⟩
    rw [← h1]
    try simp only [Emulator.mk.injEq, Cpu.mk.injEq, and_true, true_and]
    try omega


theorem inv_BNE (e e' : Emulator) (c b : Nat)
    (hb : e.read e.cpu.program_counter = .ok b)
    (hd : Opcode.try_from b = some .BNE)
    (hs : e.emulate_cpu = .ok (e', c)) :
    ∃ op, e.read ((e.cpu.program_counter + 1) % 65536) = .ok op ∧
      (e.cpu.flags.zero_flag = false → c = 3 ∧
        e' = { e with cpu := { e.cpu with
          program_counter := ((e.cpu.program_counter + 2) % 65536 +
            (if 127 < op then op + 65280 else op)) % 65536 } }) ∧
      (e.cpu.flags.zero_flag = true → c = 2 ∧
        e' = { e with cpu := { e.cpu with
          program_counter := (e.cpu.program_counter + 2) % 65536 } }) := by
  simp only [Emulator.emulate_cpu, hb, hd, Emulator.incPC, read_setCpu, two_step_mod] at hs
  cases hv : e.read ((e.cpu.program_counter + 1) % 65536) with
  | error p => rw [hv] at hs; simp at hs
  | ok op =>
    rw [hv] at hs
    simp only [] at hs
    refine ⟨op, rfl, ?_, ?_⟩
    · intro hz
      simp only [hz, Bool.not_false, Bool.not_true, Bool.false_eq_true, Bool.true_eq_false,
        if_true, if_false, ite_true, ite_false] at hs
      simp only [Except.ok.injEq, Prod.mk.injEq] at hs
      obtain ⟨h1, h2⟩ := hs
      refine ⟨h2.symm, ?_⟩
      rw [← h1]
      try simp only [Emulator.mk.injEq, Cpu.mk.injEq, and_true, true_and]
      try omega
    · intro hz
      simp only [hz, Bool.not_false, Bool.not_true, Bool.false_eq_true, Bool.true_eq_false,
        if_true, if_false, ite_true, ite_false] at hs
      simp only [Except.ok.injEq, Prod.mk.injEq] at hs
      obtain ⟨h1, h2⟩ := hs
      refine ⟨h2.symm, ?_⟩
      rw [← h1]
      try simp only [Emulator.mk.injEq, Cpu.mk.injEq, and_true, true_and]
      try omega


theorem inv_BEQ (e e' : Emulator) (c b : Nat)
    (hb : e.read e.cpu.program_counter = .ok b)
    (hd : Opcode.try_from b = some .BEQ)
    (hs : e.emulate_cpu = .ok (e', c)) :
    ∃ op, e.read ((e.cpu.program_counter + 1) % 65536) = .ok op ∧
      (e.cpu.flags.zero_flag = true → c = 3 ∧
        e' = { e with cpu := { e.cpu with
          program_counter := ((e.cpu.program_counter + 2) % 65536 +
            (if 127 < op then op + 65280 else op)) % 65536 } }) ∧
      (e.cpu.flags.zero_flag = false → c = 2 ∧
        e' = { e with cpu := { e.cpu with
          program_counter := (e.cpu.program_counter + 2) % 65536 } }) := by
  simp only [Emulator.emulate_cpu, hb, hd, Emulator.incPC, read_setCpu, two_step_mod] at hs
  cases hv : e.read ((e.cpu.program_counter + 1) % 65536) with
  | error p => rw [hv] at hs; simp at hs
  | ok op =>
    rw [hv] at hs
    simp only [] at hs
    refine ⟨op, rfl, ?_, ?_⟩
    · intro hz
      simp only [hz, Bool.not_false, Bool.not_true, Bool.false_eq_true, Bool.true_eq_false,
        if_true, if_false, ite_true, ite_false] at hs
      simp only [Except.ok.injEq, Prod.mk.injEq] at hs
      obtain ⟨h1, h2⟩ := hs
      refine ⟨h2.symm, ?_⟩
      rw [← h1]
      try simp only [Emulator.mk.injEq, Cpu.mk.injEq, and_true, true_and]
      try omega
    · intro hz
      simp only [hz, Bool.not_false, Bool.not_true, Bool.false_eq_true, Bool.true_eq_false,
        if_true, if_false, ite_true, ite_false] at hs
      simp only [Except.ok.injEq, Prod.mk.injEq] at hs
      obtain ⟨h1, h2⟩ := hs
      refine ⟨h2.symm, ?_⟩
      rw [← h1]
      try simp only [Emulator.mk.injEq, Cpu.mk.injEq, and_true, true_and]
      try omega


theorem inv_BPL (e e' : Emulator) (c b : Nat)
    (hb : e.read e.cpu.program_counter = .ok b)
    (hd : Opcode.try_from b = some .BPL)
    (hs : e.emulate_cpu = .ok (e', c)) :
    ∃ op, e.read ((e.cpu.program_counter + 1) % 65536) = .ok op ∧
      (e.cpu.flags.negative_flag = false → c = 3 ∧
        e' = { e with cpu := { e.cpu with
          program_counter := ((e.cpu.program_counter + 2) % 65536 +
            (if 127 < op then op + 65280 else op)) % 65536 } }) ∧
      (e.cpu.flags.negative_flag = true → c = 2 ∧
        e' = { e with cpu := { e.cpu with
          program_counter := (e.cpu.program_counter + 2) % 65536 } }) := by
  simp only [Emulator.emulate_cpu, hb, hd, Emulator.incPC, read_setCpu, two_step_mod] at hs
  cases hv : e.read ((e.cpu.program_counter + 1) % 65536) with
  | error p => rw [hv] at hs; simp at hs
  | ok op =>
    rw [hv] at hs
    simp only [] at hs
    refine ⟨op, rfl, ?_, ?_⟩
    · intro hz
      simp only [hz, Bool.not_false, Bool.not_true, Bool.false_eq_true, Bool.true_eq_false,
        if_true, if_false, ite_true, ite_false] at hs
      simp only [Except.ok.injEq, Prod.mk.injEq] at hs
      obtain ⟨h1, h2⟩ := hs
      refine ⟨h2.symm, ?_⟩
      rw [← h1]
      try simp only [Emulator.mk.injEq, Cpu.mk.injEq, and_true, true_and]
      try omega
    · intro hz
      simp only [hz, Bool.not_false, Bool.not_true, Bool.false_eq_true, Bool.true_eq_false,
        if_true, if_false, ite_true, ite_false] at hs
      simp only [Except.ok.injEq, Prod.mk.injEq] at hs
      obtain ⟨h1, h2⟩ := hs
      refine ⟨h2.symm, ?_⟩
      rw [← h1]
      try simp only [Emulator.mk.injEq, Cpu.mk.injEq, and_true, true_and]
      try omega


theorem inv_BMI (e e' : Emulator) (c b : Nat)
    (hb : e.read e.cpu.program_counter = .ok b)
    (hd : Opcode.try_from b = some .BMI)
    (hs : e.emulate_cpu = .ok (e', c)) :
    ∃ op, e.read ((e.cpu.program_counter + 1) % 65536) = .ok op ∧
      (e.cpu.flags.negative_flag = true → c = 3 ∧
        e' = { e with cpu := { e.cpu with
          program_counter := ((e.cpu.program_counter + 2) % 65536 +
            (if 127 < op then op + 65280 else op)) % 65536 } }) ∧
      (e.cpu.flags.negative_flag = false → c = 2 ∧
        e' = { e with cpu := { e.cpu with
          program_counter := (e.cpu.program_counter + 2) % 65536 } }) := by
  simp only [Emulator.emulate_cpu, hb, hd, Emulator.incPC, read_setCpu, two_step_mod] at hs
  cases hv : e.read ((e.cpu.program_counter + 1) % 65536) with
  | error p => rw [hv] at hs; simp at hs
  | ok op =>
    rw [hv] at hs
    simp only [] at hs
    refine ⟨op, rfl, ?_, ?_⟩
    · intro hz
      simp only [hz, Bool.not_false, Bool.not_true, Bool.false_eq_true, Bool.true_eq_false,
        if_true, if_false, ite_true, ite_false] at hs
      simp only [Except.ok.injEq, Prod.mk.injEq] at hs
      obtain ⟨h1, h2⟩ := hs
      refine ⟨h2.symm, ?_⟩
      rw [← h1]
      try simp only [Emulator.mk.injEq, Cpu.mk.injEq, and_true, true_and]
      try omega
    · intro hz
      simp only [hz, Bool.not_false, Bool.not_true, Bool.false_eq_true, Bool.true_eq_false,
        if_true, if_false, ite_true, ite_false] at hs
      simp only [Except.ok.injEq, Prod.mk.injEq] at hs
      obtain ⟨h1, h2⟩ := hs
      refine ⟨h2.symm, ?_⟩
      rw [← h1]
      try simp only [Emulator.mk.injEq, Cpu.mk.injEq, and_true, true_and]
      try omega

/- Helper lemmas shared by the claim-level theorems. -/

theorem read_total (e : Emulator) (a : Nat) (ha : a < 65536)
    (hram : e.ram.length = 0x800) (hrom : e.rom.length = 0x8000) :
    e.read a = .ok (if a < 0x800 then e.ram.getD a 0
      else if 0x8000 ≤ a then e.rom.getD (a - 0x8000) 0 else 0) := by
  unfold Emulator.read
  by_cases h1 : a < 0x800
  · rw [if_pos h1, if_pos h1]
    have hlt : a < e.ram.length := by omega
    simp [List.get?_eq_getElem?, List.getElem?_eq_getElem hlt, List.getD_eq_getElem?_getD]
  · rw [if_neg h1, if_neg h1]
    by_cases h2 : 0x8000 ≤ a
    · rw [if_pos h2, if_pos h2]
      have h3 : a - 0x8000 < e.rom.length := by omega
      simp [List.get?_eq_getElem?, List.getElem?_eq_getElem h3, List.getD_eq_getElem?_getD]
    · rw [if_neg h2, if_neg h2]

theorem branch_pc_arith (pc op : Nat) (hop8 : op < 256) :
    ((pc + 2) % 65536 + (if 127 < op then op + 65280 else op)) % 65536 =
      ((((pc : Int) + 2 +
        (if 128 ≤ op then (op : Int) - 256 else (op : Int))) % 65536).toNat) := by
  rcases Nat.lt_or_ge 127 op with h | h
  · rw [if_pos h, if_pos (by omega)]
    omega
  · rw [if_neg (by omega), if_neg (by omega)]
    omega

/-- C8: for every 16-bit address, `read` never fails: addresses below the
RAM size return the RAM byte, addresses at or above the ROM base return the
offset-adjusted ROM byte, and every address in the reserved middle region
returns 0. -/
theorem C8_read_never_fails (e : Emulator) (a : Nat) (hwf : e.WF) (ha : a < 65536) :
    e.read a = .ok (if a < 0x800 then e.ram.getD a 0
      else if 0x8000 ≤ a then e.rom.getD (a - 0x8000) 0 else 0) :=
  read_total e a ha hwf.1 hwf.2

/-- Witness for C8 at concrete inputs: a RAM address (initial fill 0xFF), a
reserved-region address (0), and a ROM address (initial fill 0). -/
theorem C8_read_never_fails_witness :
    (Emulator.new 0x800 0x8000).read 0x123 = .ok 0xFF ∧
    (Emulator.new 0x800 0x8000).read 0x2345 = .ok 0 ∧
    (Emulator.new 0x800 0x8000).read 0x9000 = .ok 0 := by
  have hwf : (Emulator.new 0x800 0x8000).WF := by
    constructor <;> simp only [Emulator.new, List.length_replicate]
  refine ⟨?_, ?_, ?_⟩
  · rw [C8_read_never_fails (Emulator.new 0x800 0x8000) 0x123 hwf (by norm_num)]
    simp only [Emulator.new, List.getD_eq_getElem?_getD, List.getElem?_replicate]
    norm_num
  · rw [C8_read_never_fails (Emulator.new 0x800 0x8000) 0x2345 hwf (by norm_num)]
    norm_num
  · rw [C8_read_never_fails (Emulator.new 0x800 0x8000) 0x9000 hwf (by norm_num)]
    simp only [Emulator.new, List.getD_eq_getElem?_getD, List.getElem?_replicate]
    norm_num

/-- C5: relative branch semantics for BEQ/BNE/BPL/BMI.  The operand byte is
reinterpreted as signed two's-complement (values ≥ 128 reduced by 256);
when the condition holds the signed offset is added (mod 2^16) to the
program counter already advanced past the operand byte; otherwise the
program counter is left at its post-fetch value.  Condition predicates:
BEQ → zero set, BNE → zero clear, BMI → negative set, BPL → negative
clear. -/
theorem C5_branch_semantics (e e' : Emulator) (c b op : Nat) (cond : Bool)
    (hcase : (b = 0xF0 ∧ cond = e.cpu.flags.zero_flag) ∨
             (b = 0xD0 ∧ cond = !e.cpu.flags.zero_flag) ∨
             (b = 0x30 ∧ cond = e.cpu.flags.negative_flag) ∨
             (b = 0x10 ∧ cond = !e.cpu.flags.negative_flag))
    (hb : e.read e.cpu.program_counter = .ok b)
    (hop : e.read ((e.cpu.program_counter + 1) % 65536) = .ok op)
    (hop8 : op < 256)
    (hs : e.emulate_cpu = .ok (e', c)) :
    e'.cpu.program_counter =
      if cond then
        ((((e.cpu.program_counter : Int) + 2 +
          (if 128 ≤ op then (op : Int) - 256 else (op : Int))) % 65536).toNat)
      else (e.cpu.program_counter + 2) % 65536 := by
  rcases hcase with ⟨rfl, hc⟩ | ⟨rfl, hc⟩ | ⟨rfl, hc⟩ | ⟨rfl, hc⟩
  · obtain ⟨op', hop', htk, hsk⟩ := inv_BEQ e e' c 0xF0 hb rfl hs
    rw [hop] at hop'
    simp only [Except.ok.injEq] at hop'
    subst hop'
    cases hz : e.cpu.flags.zero_flag with
    | false =>
      obtain ⟨-, he⟩ := hsk hz
      subst he
      rw [hc, hz]
      simp
    | true =>
      obtain ⟨-, he⟩ := htk hz
      subst he
      rw [hc, hz]
      simpa using branch_pc_arith e.cpu.program_counter op hop8
  · obtain ⟨op', hop', htk, hsk⟩ := inv_BNE e e' c 0xD0 hb rfl hs
    rw [hop] at hop'
    simp only [Except.ok.injEq] at hop'
    subst hop'
    cases hz : e.cpu.flags.zero_flag with
    | false =>
      obtain ⟨-, he⟩ := htk hz
      subst he
      rw [hc, hz]
      simpa using branch_pc_arith e.cpu.program_counter op hop8
    | true =>
      obtain ⟨-, he⟩ := hsk hz
      subst he
      rw [hc, hz]
      simp
  · obtain ⟨op', hop', htk, hsk⟩ := inv_BMI e e' c 0x30 hb rfl hs
    rw [hop] at hop'
    simp only [Except.ok.injEq] at hop'
    subst hop'
    cases hz : e.cpu.flags.negative_flag with
    | false =>
      obtain ⟨-, he⟩ := hsk hz
      subst he
      rw [hc, hz]
      simp
    | true =>
      obtain ⟨-, he⟩ := htk hz
      subst he
      rw [hc, hz]
      simpa using branch_pc_arith e.cpu.program_counter op hop8
  · obtain ⟨op', hop', htk, hsk⟩ := inv_BPL e e' c 0x10 hb rfl hs
    rw [hop] at hop'
    simp only [Except.ok.injEq] at hop'
    subst hop'
    cases hz : e.cpu.flags.negative_flag with
    | false =>
      obtain ⟨-, he⟩ := htk hz
      subst he
      rw [hc, hz]
      simpa using branch_pc_arith e.cpu.program_counter op hop8
    | true =>
      obtain ⟨-, he⟩ := hsk hz
      subst he
      rw [hc, hz]
      simp

/-- The freshly constructed emulator of `main`:
`Emulator::new(0x800, 0x8000, ..)`. -/
def embase : Emulator := Emulator.new 0x800 0x8000

/-- Test fixture: `BNE 0xFE` (branch backward by 2) at address 0, with the
zero flag clear (its initial value).  The RAM buffer holds just the two
program bytes; the instruction never accesses any other address. -/
def c5emu : Emulator := { embase with ram := [0xD0, 0xFE] }

set_option maxRecDepth 4096 in
/-- Witness for C5: `BNE` at pc 0 with operand `0xFE` (-2) and zero flag
clear lands the program counter back at 0 (post-operand position 2, minus
2). -/
theorem C5_branch_semantics_witness :
    ∃ e' c, c5emu.emulate_cpu = .ok (e', c) ∧ e'.cpu.program_counter = 0 := by
  obtain ⟨e', c, hs⟩ : ∃ e' c, c5emu.emulate_cpu = .ok (e', c) := ⟨_, _, rfl⟩
  have h := C5_branch_semantics c5emu e' c 0xD0 0xFE true
    (Or.inr (Or.inl ⟨rfl, rfl⟩)) rfl rfl (by norm_num) hs
  refine ⟨e', c, hs, ?_⟩
  rw [h]
  simp only [c5emu, embase, Emulator.new]
  norm_num

/-- C6: LDA-Immediate (0xA9) and PLA (0x68) set zero = (result == 0) and
negative = (result ≥ 0x80) from the loaded value (and leave the other
three flags unchanged); no other instruction of the opcode subset
modifies any flag. -/
theorem C6_flag_policy (e e' : Emulator) (c b : Nat)
    (hb : e.read e.cpu.program_counter = .ok b)
    (hs : e.emulate_cpu = .ok (e', c)) :
    ((b = 0xA9 ∨ b = 0x68) →
      e'.cpu.flags.zero_flag = decide (e'.cpu.reg_a = 0) ∧
      e'.cpu.flags.negative_flag = decide (0x80 ≤ e'.cpu.reg_a) ∧
      e'.cpu.flags.carry_flag = e.cpu.flags.carry_flag ∧
      e'.cpu.flags.interrupt_disable_flag = e.cpu.flags.interrupt_disable_flag ∧
      e'.cpu.flags.overflow_flag = e.cpu.flags.overflow_flag) ∧
    (b ∈ ([0x02, 0xA0, 0xA2, 0xA5, 0xAD, 0x85, 0x8D, 0x86, 0x8E, 0x84, 0x8C,
           0x48, 0x10, 0x30, 0xD0, 0xF0] : List Nat) →
      e'.cpu.flags = e.cpu.flags) := by
  constructor
  · rintro (rfl | rfl)
    · obtain ⟨v, -, -, he⟩ := inv_LDA_Immediate e e' c 0xA9 hb rfl hs
      subst he
      refine ⟨rfl, ?_, rfl, rfl, rfl⟩
      simp only [decide_eq_decide]
      omega
    · obtain ⟨v, -, -, he⟩ := inv_PLA e e' c 0x68 hb rfl hs
      subst he
      exact ⟨rfl, rfl, rfl, rfl, rfl⟩
  · intro hmem
    fin_cases hmem
    · obtain ⟨-, he⟩ := inv_HLT e e' c 0x02 hb rfl hs
      subst he; rfl
    · obtain ⟨v, -, -, he⟩ := inv_LDY_Immediate e e' c 0xA0 hb rfl hs
      subst he; rfl
    · obtain ⟨v, -, -, he⟩ := inv_LDX_Immediate e e' c 0xA2 hb rfl hs
      subst he; rfl
    · obtain ⟨v, w, -, -, -, he⟩ := inv_LDA_ZeroPage e e' c 0xA5 hb rfl hs
      subst he; rfl
    · obtain ⟨l, h, w, -, -, -, -, he⟩ := inv_LDA_Absolute e e' c 0xAD hb rfl hs
      subst he; rfl
    · obtain ⟨v, -, -, -, -, he⟩ := inv_STA_ZeroPage e e' c 0x85 hb rfl hs
      subst he; rfl
    · obtain ⟨l, h, -, -, -, -, -, he⟩ := inv_STA_Absolute e e' c 0x8D hb rfl hs
      subst he; rfl
    · obtain ⟨v, -, -, -, -, he⟩ := inv_STX_ZeroPage e e' c 0x86 hb rfl hs
      subst he; rfl
    · obtain ⟨l, h, -, -, -, -, -, he⟩ := inv_STX_Absolute e e' c 0x8E hb rfl hs
      subst he; rfl
    · obtain ⟨v, -, -, -, -, he⟩ := inv_STY_ZeroPage e e' c 0x84 hb rfl hs
      subst he; rfl
    · obtain ⟨l, h, -, -, -, -, -, he⟩ := inv_STY_Absolute e e' c 0x8C hb rfl hs
      subst he; rfl
    · obtain ⟨-, -, -, he⟩ := inv_PHA e e' c 0x48 hb rfl hs
      subst he; rfl
    · obtain ⟨op, -, ht, hsk⟩ := inv_BPL e e' c 0x10 hb rfl hs
      cases hz : e.cpu.flags.negative_flag with
      | false => obtain ⟨-, he⟩ := ht hz; subst he; rfl
      | true => obtain ⟨-, he⟩ := hsk hz; subst he; rfl
    · obtain ⟨op, -, ht, hsk⟩ := inv_BMI e e' c 0x30 hb rfl hs
      cases hz : e.cpu.flags.negative_flag with
      | false => obtain ⟨-, he⟩ := hsk hz; subst he; rfl
      | true => obtain ⟨-, he⟩ := ht hz; subst he; rfl
    · obtain ⟨op, -, ht, hsk⟩ := inv_BNE e e' c 0xD0 hb rfl hs
      cases hz : e.cpu.flags.zero_flag with
      | false => obtain ⟨-, he⟩ := ht hz; subst he; rfl
      | true => obtain ⟨-, he⟩ := hsk hz; subst he; rfl
    · obtain ⟨op, -, ht, hsk⟩ := inv_BEQ e e' c 0xF0 hb rfl hs
      cases hz : e.cpu.flags.zero_flag with
      | false => obtain ⟨-, he⟩ := hsk hz; subst he; rfl
      | true => obtain ⟨-, he⟩ := ht hz; subst he; rfl

/-- Test fixture: `LDA #0x00` at address 0. -/
def c6emu : Emulator := { embase with ram := [0xA9, 0x00] }

set_option maxRecDepth 4096 in
/-- Witness for C6: executing `LDA #0x00` yields flags computed from the
loaded value by the stated rule. -/
theorem C6_flag_policy_witness :
    ∃ e' c, c6emu.emulate_cpu = .ok (e', c) ∧
      e'.cpu.flags.zero_flag = decide (e'.cpu.reg_a = 0) ∧
      e'.cpu.flags.negative_flag = decide (0x80 ≤ e'.cpu.reg_a) := by
  obtain ⟨e', c, hs⟩ : ∃ e' c, c6emu.emulate_cpu = .ok (e', c) := ⟨_, _, rfl⟩
  have h := (C6_flag_policy c6emu e' c 0xA9 rfl hs).1 (Or.inl rfl)
  exact ⟨e', c, hs, h.1, h.2.1⟩

/-- C10: a store instruction (STA/STX/STY, zero-page or absolute) whose
target lies in the RAM region changes only the single targeted memory byte
and the program counter: every register, the stack pointer, all five flags,
`halted`, the ROM, and every other memory byte are unchanged.  The
hypothesis that the target is in RAM is not needed: it follows from the
step having succeeded (a store outside RAM panics), and is part of the
conclusion. -/
theorem C10_store_frame (e e' : Emulator) (c b target : Nat)
    (hcase :
      ((b = 0x85 ∨ b = 0x86 ∨ b = 0x84) ∧
        e.read ((e.cpu.program_counter + 1) % 65536) = .ok target) ∨
      ((b = 0x8D ∨ b = 0x8E ∨ b = 0x8C) ∧
        ∃ l h, e.read ((e.cpu.program_counter + 1) % 65536) = .ok l ∧
          e.read ((e.cpu.program_counter + 2) % 65536) = .ok h ∧
          target = (h * 256 + l) % 65536))
    (hb : e.read e.cpu.program_counter = .ok b)
    (hs : e.emulate_cpu = .ok (e', c)) :
    target < 0x800 ∧
    e'.ram = e.ram.set target
      (if b = 0x85 ∨ b = 0x8D then e.cpu.reg_a
       else if b = 0x86 ∨ b = 0x8E then e.cpu.reg_x else e.cpu.reg_y) ∧
    e'.rom = e.rom ∧
    e'.cpu.reg_a = e.cpu.reg_a ∧ e'.cpu.reg_x = e.cpu.reg_x ∧
    e'.cpu.reg_y = e.cpu.reg_y ∧
    e'.cpu.stack_pointer = e.cpu.stack_pointer ∧
    e'.cpu.flags = e.cpu.flags ∧ e'.cpu.halted = e.cpu.halted ∧
    e'.cpu.program_counter = (e.cpu.program_counter +
      (if b = 0x85 ∨ b = 0x86 ∨ b = 0x84 then 2 else 3)) % 65536 ∧
    (∀ i, i ≠ target → e'.ram[i]? = e.ram[i]?) ∧
    e'.ram[target]? = some
      (if b = 0x85 ∨ b = 0x8D then e.cpu.reg_a
       else if b = 0x86 ∨ b = 0x8E then e.cpu.reg_x else e.cpu.reg_y) := by
  rcases hcase with ⟨hb3, hread⟩ | ⟨hb3, l, h, hl, hh, ht⟩
  · rcases hb3 with rfl | rfl | rfl
    · obtain ⟨v, hv, h8, hlen, -, he⟩ := inv_STA_ZeroPage e e' c 0x85 hb rfl hs
      rw [hread] at hv
      simp only [Except.ok.injEq] at hv
      subst hv
      subst he
      refine ⟨h8, by norm_num, rfl, rfl, rfl, rfl, rfl, rfl, rfl, by norm_num,
        fun i hi => List.getElem?_set_ne (Ne.symm hi), ?_⟩
      norm_num
      exact List.getElem?_set_eq_of_lt _ hlen
    · obtain ⟨v, hv, h8, hlen, -, he⟩ := inv_STX_ZeroPage e e' c 0x86 hb rfl hs
      rw [hread] at hv
      simp only [Except.ok.injEq] at hv
      subst hv
      subst he
      refine ⟨h8, by norm_num, rfl, rfl, rfl, rfl, rfl, rfl, rfl, by norm_num,
        fun i hi => List.getElem?_set_ne (Ne.symm hi), ?_⟩
      norm_num
      exact List.getElem?_set_eq_of_lt _ hlen
    · obtain ⟨v, hv, h8, hlen, -, he⟩ := inv_STY_ZeroPage e e' c 0x84 hb rfl hs
      rw [hread] at hv
      simp only [Except.ok.injEq] at hv
      subst hv
      subst he
      refine ⟨h8, by norm_num, rfl, rfl, rfl, rfl, rfl, rfl, rfl, by norm_num,
        fun i hi => List.getElem?_set_ne (Ne.symm hi), ?_⟩
      norm_num
      exact List.getElem?_set_eq_of_lt _ hlen
  · subst ht
    rcases hb3 with rfl | rfl | rfl
    · obtain ⟨l', h', hl', hh', h8, hlen, -, he⟩ := inv_STA_Absolute e e' c 0x8D hb rfl hs
      rw [hl] at hl'
      rw [hh] at hh'
      simp only [Except.ok.injEq] at hl' hh'
      subst hl'
      subst hh'
      subst he
      refine ⟨h8, by norm_num, rfl, rfl, rfl, rfl, rfl, rfl, rfl, by norm_num,
        fun i hi => List.getElem?_set_ne (Ne.symm hi), ?_⟩
      norm_num
      exact List.getElem?_set_eq_of_lt _ hlen
    · obtain ⟨l', h', hl', hh', h8, hlen, -, he⟩ := inv_STX_Absolute e e' c 0x8E hb rfl hs
      rw [hl] at hl'
      rw [hh] at hh'
      simp only [Except.ok.injEq] at hl' hh'
      subst hl'
      subst hh'
      subst he
      refine ⟨h8, by norm_num, rfl, rfl, rfl, rfl, rfl, rfl, rfl, by norm_num,
        fun i hi => List.getElem?_set_ne (Ne.symm hi), ?_⟩
      norm_num
      exact List.getElem?_set_eq_of_lt _ hlen
    · obtain ⟨l', h', hl', hh', h8, hlen, -, he⟩ := inv_STY_Absolute e e' c 0x8C hb rfl hs
      rw [hl] at hl'
      rw [hh] at hh'
      simp only [Except.ok.injEq] at hl' hh'
      subst hl'
      subst hh'
      subst he
      refine ⟨h8, by norm_num, rfl, rfl, rfl, rfl, rfl, rfl, rfl, by norm_num,
        fun i hi => List.getElem?_set_ne (Ne.symm hi), ?_⟩
      norm_num
      exact List.getElem?_set_eq_of_lt _ hlen

/-- Test fixture: `STA 0x10` (zero-page) at address 0 with accumulator
0x42, over a 32-byte RAM buffer. -/
def c10emu : Emulator :=
  { embase with
    ram := ((List.replicate 32 0xFF).set 0 0x85).set 1 0x10
    cpu := { embase.cpu with reg_a := 0x42 } }

set_option maxRecDepth 4096 in
/-- Witness for C10: the zero-page store writes 0x42 to RAM index 0x10,
leaves a neighbouring byte and the flags unchanged, and advances the
program counter by 2. -/
theorem C10_store_frame_witness :
    ∃ e' c, c10emu.emulate_cpu = .ok (e', c) ∧
      e'.ram[0x10]? = some 0x42 ∧
      e'.ram[0x11]? = c10emu.ram[0x11]? ∧
      e'.cpu.flags = c10emu.cpu.flags ∧
      e'.cpu.program_counter = 2 := by
  obtain ⟨e', c, hs⟩ : ∃ e' c, c10emu.emulate_cpu = .ok (e', c) := ⟨_, _, rfl⟩
  have h := C10_store_frame c10emu e' c 0x85 0x10
    (Or.inl ⟨Or.inl rfl, rfl⟩) rfl hs
  obtain ⟨-, -, -, -, -, -, -, hflags, -, hpc, hframe, htgt⟩ := h
  refine ⟨e', c, hs, ?_, hframe 0x11 (by norm_num), hflags, ?_⟩
  · rw [htgt]
    norm_num [c10emu, embase, Emulator.new]
  · rw [hpc]
    norm_num [c10emu, embase, Emulator.new]

theorem write_inv (e ew : Emulator) (a v : Nat) (h : e.write a v = .ok ew) :
    a < 0x800 ∧ a < e.ram.length ∧ ew = { e with ram := e.ram.set a v } := by
  unfold Emulator.write at h
  by_cases h8 : a < 0x800
  · rw [if_pos h8] at h
    by_cases hlen : a < e.ram.length
    · rw [if_pos hlen] at h
      simp only [Except.ok.injEq] at h
      exact ⟨h8, hlen, h.symm⟩
    · rw [if_neg hlen] at h
      simp at h
  · rw [if_neg h8] at h
    by_cases h16 : 0x8000 ≤ a
    · rw [if_pos h16] at h
      simp at h
    · rw [if_neg h16] at h
      simp at h

/-- C4 (amended): all program-counter and stack-pointer arithmetic is taken
modulo 2^16 — both fields are `u16` in the source.  In particular the
bounds `< 65536` are preserved by every successful step, decrementing the
stack pointer from 0 (a push) wraps to 65535 (not 255: the stack pointer
is not 8-bit), and incrementing it from 65535 (a pull) wraps to 0. -/
theorem C4_mod_2_16 :
    (∀ (e e' : Emulator) (c : Nat),
      e.cpu.program_counter < 65536 → e.cpu.stack_pointer < 65536 →
      e.emulate_cpu = .ok (e', c) →
      e'.cpu.program_counter < 65536 ∧ e'.cpu.stack_pointer < 65536) ∧
    (∀ (e e' : Emulator) (v : Nat), e.cpu.stack_pointer = 0 →
      e.push v = .ok e' → e'.cpu.stack_pointer = 65535) ∧
    (∀ (e : Emulator) (p : Emulator × Nat), e.cpu.stack_pointer = 65535 →
      e.pull = .ok p → p.1.cpu.stack_pointer = 0) := by
  refine ⟨?_, ?_, ?_⟩
  · intro e e' c hpc hsp hs
    cases hb : e.read e.cpu.program_counter with
    | error p =>
      simp only [Emulator.emulate_cpu, hb] at hs
      simp at hs
    | ok b =>
      cases hd : Opcode.try_from b with
      | none =>
        simp only [Emulator.emulate_cpu, hb, hd] at hs
        simp at hs
      | some opc =>
        cases opc
        · obtain ⟨-, he⟩ := inv_HLT e e' c b hb hd hs
          subst he; dsimp only; omega
        · obtain ⟨-, -, -, he⟩ := inv_PHA e e' c b hb hd hs
          subst he; dsimp only; omega
        · obtain ⟨v, -, -, he⟩ := inv_PLA e e' c b hb hd hs
          subst he; dsimp only; omega
        · obtain ⟨op, -, ht, hsk⟩ := inv_BPL e e' c b hb hd hs
          cases hz : e.cpu.flags.negative_flag with
          | false => obtain ⟨-, he⟩ := ht hz; subst he; dsimp only; omega
          | true => obtain ⟨-, he⟩ := hsk hz; subst he; dsimp only; omega
        · obtain ⟨op, -, ht, hsk⟩ := inv_BMI e e' c b hb hd hs
          cases hz : e.cpu.flags.negative_flag with
          | false => obtain ⟨-, he⟩ := hsk hz; subst he; dsimp only; omega
          | true => obtain ⟨-, he⟩ := ht hz; subst he; dsimp only; omega
        · obtain ⟨op, -, ht, hsk⟩ := inv_BNE e e' c b hb hd hs
          cases hz : e.cpu.flags.zero_flag with
          | false => obtain ⟨-, he⟩ := ht hz; subst he; dsimp only; omega
          | true => obtain ⟨-, he⟩ := hsk hz; subst he; dsimp only; omega
        · obtain ⟨op, -, ht, hsk⟩ := inv_BEQ e e' c b hb hd hs
          cases hz : e.cpu.flags.zero_flag with
          | false => obtain ⟨-, he⟩ := hsk hz; subst he; dsimp only; omega
          | true => obtain ⟨-, he⟩ := ht hz; subst he; dsimp only; omega
        · obtain ⟨v, -, -, he⟩ := inv_LDY_Immediate e e' c b hb hd hs
          subst he; dsimp only; omega
        · obtain ⟨v, -, -, he⟩ := inv_LDX_Immediate e e' c b hb hd hs
          subst he; dsimp only; omega
        · obtain ⟨v, w, -, -, -, he⟩ := inv_LDA_ZeroPage e e' c b hb hd hs
          subst he; dsimp only; omega
        · obtain ⟨v, -, -, he⟩ := inv_LDA_Immediate e e' c b hb hd hs
          subst he; dsimp only; omega
        · obtain ⟨l, h, w, -, -, -, -, he⟩ := inv_LDA_Absolute e e' c b hb hd hs
          subst he; dsimp only; omega
        · obtain ⟨v, -, -, -, -, he⟩ := inv_STA_ZeroPage e e' c b hb hd hs
          subst he; dsimp only; omega
        · obtain ⟨l, h, -, -, -, -, -, he⟩ := inv_STA_Absolute e e' c b hb hd hs
          subst he; dsimp only; omega
        · obtain ⟨v, -, -, -, -, he⟩ := inv_STX_ZeroPage e e' c b hb hd hs
          subst he; dsimp only; omega
        · obtain ⟨l, h, -, -, -, -, -, he⟩ := inv_STX_Absolute e e' c b hb hd hs
          subst he; dsimp only; omega
        · obtain ⟨v, -, -, -, -, he⟩ := inv_STY_ZeroPage e e' c b hb hd hs
          subst he; dsimp only; omega
        · obtain ⟨l, h, -, -, -, -, -, he⟩ := inv_STY_Absolute e e' c b hb hd hs
          subst he; dsimp only; omega
  · intro e e' v hsp0 hp
    simp only [Emulator.push] at hp
    cases hw : e.write e.cpu.stack_pointer v with
    | error p =>
      rw [hw] at hp
      simp at hp
    | ok ew =>
      rw [hw] at hp
      simp only [Except.ok.injEq] at hp
      obtain ⟨-, -, hew⟩ := write_inv e ew e.cpu.stack_pointer v hw
      subst hew
      subst hp
      dsimp only
      rw [hsp0]
  · intro e p hsp hp
    simp only [Emulator.pull, read_setCpu] at hp
    cases hv : e.read ((0x100 + (e.cpu.stack_pointer + 1) % 65536) % 65536) with
    | error q =>
      rw [hv] at hp
      simp at hp
    | ok v =>
      rw [hv] at hp
      simp only [Except.ok.injEq] at hp
      rw [← hp]
      dsimp only
      rw [hsp]

/-- Test fixture: `PHA` at address 0 with stack pointer 0 and accumulator
7 (a 1-byte RAM suffices: the push writes at address 0). -/
def c4emu : Emulator := { embase with ram := [0x48], cpu := { embase.cpu with reg_a := 7 } }

/-- Test fixture: an emulator with stack pointer 255; a pull reads from
`0x100 + 256 = 0x200`, so RAM must extend past index 512. -/
def c4pullemu : Emulator :=
  { embase with
    ram := List.replicate 513 0xFF
    cpu := { embase.cpu with stack_pointer := 255 } }

/-- Test fixture: an emulator with stack pointer 65535; a pull wraps the
stack pointer to 0 and reads from `0x100`. -/
def c4wrapemu : Emulator :=
  { embase with
    ram := List.replicate 257 0xAB
    cpu := { embase.cpu with stack_pointer := 65535 } }

set_option maxRecDepth 8192 in
/-- Counterexample to C4 as stated: the stack pointer is a `u16`, not a
`u8`.  Executing `PHA` with stack pointer 0 leaves it at 65535 — not at
255 as the claim's modulo-2^8 reading requires — and a pull with stack
pointer 255 leaves it at 256, not 0. -/
theorem C4_sp_is_u16_counterexample :
    (Except.map (fun p => p.1.cpu.stack_pointer) c4emu.emulate_cpu = .ok 65535 ∧
      (65535 : Nat) ≠ 255) ∧
    (Except.map (fun p => p.1.cpu.stack_pointer) c4pullemu.pull = .ok 256 ∧
      (256 : Nat) ≠ 0) :=
  ⟨⟨rfl, by norm_num⟩, ⟨rfl, by norm_num⟩⟩

set_option maxRecDepth 8192 in
/-- Witness for the amended C4: the bound-preservation part at a concrete
`PHA` step, the push-wrap part at stack pointer 0, and the pull-wrap part
at stack pointer 65535. -/
theorem C4_mod_2_16_witness :
    (∃ e' c, c4emu.emulate_cpu = .ok (e', c) ∧
      e'.cpu.program_counter < 65536 ∧ e'.cpu.stack_pointer < 65536) ∧
    (∃ e', c4emu.push 0x42 = .ok e' ∧ e'.cpu.stack_pointer = 65535) ∧
    (∃ p, c4wrapemu.pull = .ok p ∧ p.1.cpu.stack_pointer = 0) := by
  obtain ⟨h1, h2, h3⟩ := C4_mod_2_16
  refine ⟨?_, ?_, ?_⟩
  · obtain ⟨e', c, hs⟩ : ∃ e' c, c4emu.emulate_cpu = .ok (e', c) := ⟨_, _, rfl⟩
    exact ⟨e', c, hs, h1 c4emu e' c (by decide) (by decide) hs⟩
  · obtain ⟨e', hp⟩ : ∃ e', c4emu.push 0x42 = .ok e' := ⟨_, rfl⟩
    exact ⟨e', hp, h2 c4emu e' 0x42 rfl hp⟩
  · obtain ⟨p, hp⟩ : ∃ p, c4wrapemu.pull = .ok p := ⟨_, rfl⟩
    exact ⟨p, hp, h3 c4wrapemu p rfl hp⟩

theorem read_set_ne (e : Emulator) (cpu' : Cpu) (j w a : Nat) (hne : a ≠ j) :
    (Emulator.mk (e.ram.set j w) e.rom e.header cpu').read a = e.read a := by
  unfold Emulator.read
  dsimp only
  by_cases h1 : a < 0x800
  · rw [if_pos h1, if_pos h1, List.get?_eq_getElem?, List.get?_eq_getElem?,
      List.getElem?_set_ne (Ne.symm hne)]
  · rw [if_neg h1, if_neg h1]

theorem runFuel_succ (n : Nat) (e : Emulator) :
    Emulator.runFuel (n + 1) e =
      if e.cpu.halted then .ok e
      else match e.emulate_cpu with
        | .error p => .error p
        | .ok (e', _) => Emulator.runFuel n e' := rfl

/-- C3 (amended): executing `PHA` then `PLA` (with no intervening stack
writes) restores the stack pointer to its pre-push value, but the
accumulator afterwards is whatever byte sits at `0x100 + stack_pointer`
before the sequence — not, in general, the pushed value: the push stores
to the bare address `stack_pointer`, while the pull reads from
`0x100 + stack_pointer`. -/
theorem C3_pha_pla_amended (e : Emulator) (v : Nat)
    (hh : e.cpu.halted = false)
    (hsp8 : e.cpu.stack_pointer < 0x800)
    (hsplen : e.cpu.stack_pointer < e.ram.length)
    (hspne : (e.cpu.program_counter + 1) % 65536 ≠ e.cpu.stack_pointer)
    (hb1 : e.read e.cpu.program_counter = .ok 0x48)
    (hb2 : e.read ((e.cpu.program_counter + 1) % 65536) = .ok 0x68)
    (hv : e.read (0x100 + e.cpu.stack_pointer) = .ok v) :
    ∃ e2, Emulator.runFuel 2 e = .ok e2 ∧
      e2.cpu.stack_pointer = e.cpu.stack_pointer ∧
      e2.cpu.reg_a = v := by
  have htf48 : Opcode.try_from 0x48 = some Opcode.PHA := rfl
  have htf68 : Opcode.try_from 0x68 = some Opcode.PLA := rfl
  have hsp_round : ((e.cpu.stack_pointer + 65535) % 65536 + 1) % 65536 =
      e.cpu.stack_pointer := by omega
  have haddr : (0x100 + e.cpu.stack_pointer) % 65536 =
      0x100 + e.cpu.stack_pointer := by omega
  have hstep1 : e.emulate_cpu =
      .ok ({ e with
        ram := e.ram.set e.cpu.stack_pointer e.cpu.reg_a
        cpu := { e.cpu with
          program_counter := (e.cpu.program_counter + 1) % 65536
          stack_pointer := (e.cpu.stack_pointer + 65535) % 65536 } }, 3) := by
    unfold Emulator.emulate_cpu
    rw [hb1]
    simp only [htf48, Emulator.incPC, Emulator.push, Emulator.write]
    rw [if_pos hsp8, if_pos hsplen]
  have hb2' :
      (Emulator.mk (e.ram.set e.cpu.stack_pointer e.cpu.reg_a) e.rom e.header
        { e.cpu with
          program_counter := (e.cpu.program_counter + 1) % 65536
          stack_pointer := (e.cpu.stack_pointer + 65535) % 65536 }).read
        ((e.cpu.program_counter + 1) % 65536) = .ok 0x68 :=
    (read_set_ne e _ _ _ _ hspne).trans hb2
  have hstep2 :
      (Emulator.mk (e.ram.set e.cpu.stack_pointer e.cpu.reg_a) e.rom e.header
        { e.cpu with
          program_counter := (e.cpu.program_counter + 1) % 65536
          stack_pointer := (e.cpu.stack_pointer + 65535) % 65536 }).emulate_cpu =
      .ok ({ e with
        ram := e.ram.set e.cpu.stack_pointer e.cpu.reg_a
        cpu := { e.cpu with
          program_counter := ((e.cpu.program_counter + 1) % 65536 + 1) % 65536
          stack_pointer := e.cpu.stack_pointer
          reg_a := v
          flags := { e.cpu.flags with
            zero_flag := decide (v = 0)
            negative_flag := decide (0x80 ≤ v) } } }, 4) := by
    unfold Emulator.emulate_cpu
    dsimp only
    rw [hb2']
    simp only [htf68, Emulator.incPC, Emulator.pull]
    rw [hsp_round, haddr]
    rw [read_set_ne e _ _ _ _ (show 0x100 + e.cpu.stack_pointer ≠ e.cpu.stack_pointer by omega)]
    rw [hv]
  dsimp only at hstep1 hstep2
  rw [hh] at hstep2
  have hrun : Emulator.runFuel 2 e = .ok { e with
      ram := e.ram.set e.cpu.stack_pointer e.cpu.reg_a
      cpu := { e.cpu with
        program_counter := ((e.cpu.program_counter + 1) % 65536 + 1) % 65536
        stack_pointer := e.cpu.stack_pointer
        reg_a := v
        flags := { e.cpu.flags with
          zero_flag := decide (v = 0)
          negative_flag := decide (0x80 ≤ v) } } } := by
    rw [runFuel_succ, hh]
    simp only [Bool.false_eq_true, if_false]
    rw [hstep1]
    simp only []
    rw [runFuel_succ]
    dsimp only
    rw [hh]
    simp only [Bool.false_eq_true, if_false]
    rw [hstep2]
    rfl
  exact ⟨_, hrun, rfl, rfl⟩

/-- Test fixture: `PHA` then `PLA` at address 0, accumulator 5, stack
pointer 0; RAM is 257 bytes so that the pull's read from `0x100` is in
bounds, and that byte holds the fill value 0xFF. -/
def c3emu : Emulator :=
  { embase with
    ram := ((List.replicate 257 0xFF).set 0 0x48).set 1 0x68
    cpu := { embase.cpu with reg_a := 5 } }

set_option maxRecDepth 8192 in
/-- Counterexample to C3 as stated: after `PHA` then `PLA` with no
intervening stack writes, the accumulator is 0xFF (the byte at `0x100`),
not its pre-push value 5; the stack pointer is restored to 0. -/
theorem C3_counterexample :
    c3emu.cpu.reg_a = 5 ∧
    Except.map (fun e => (e.cpu.reg_a, e.cpu.stack_pointer))
      (Emulator.runFuel 2 c3emu) = .ok (0xFF, 0) ∧
    (0xFF : Nat) ≠ 5 :=
  ⟨rfl, rfl, by norm_num⟩

set_option maxRecDepth 8192 in
/-- Witness for the amended C3 at the concrete fixture: the stack pointer
comes back to 0 and the accumulator becomes 0xFF, the pre-existing byte at
`0x100`. -/
theorem C3_pha_pla_amended_witness :
    ∃ e2, Emulator.runFuel 2 c3emu = .ok e2 ∧
      e2.cpu.stack_pointer = c3emu.cpu.stack_pointer ∧
      e2.cpu.reg_a = 0xFF :=
  C3_pha_pla_amended c3emu 0xFF rfl (by decide) (by decide) (by decide) rfl rfl rfl

/-- C1: on the freshly constructed emulator (`Emulator::new(0x800, 0x8000, ..)`
of `main`), the byte at the program counter is the RAM fill value 0xFF,
which matches no opcode-table entry, and `emulate_cpu` hits the
`Opcode::try_from(..).unwrap()` panic — an unrecoverable abort — rather
than returning a distinct UnimplementedOpcode error value (no such error
value exists in the source).  This evaluates the code at the claim's
failing input. -/
theorem C1_unknown_opcode_is_unwrap_panic :
    embase.read embase.cpu.program_counter = .ok 0xFF ∧
    Opcode.try_from 0xFF = none ∧
    embase.emulate_cpu = .error (.unwrapFailed 0xFF) ∧
    embase.emulate_cpu_ret = .error (.unwrapFailed 0xFF) :=
  ⟨rfl, rfl, rfl, rfl⟩

/-- C2: a write to the ROM region (`0x8000`), to the first reserved
address (`0x800`), or to the middle of the reserved region (`0x1000`)
hits a `todo!()` panic — an unrecoverable abort — rather than producing
an InvalidWriteTarget error value (no such error value exists in the
source).  This evaluates the code at the claim's failing inputs. -/
theorem C2_write_outside_ram_is_todo_panic :
    embase.write 0x8000 0x42 = .error .todoRomWrite ∧
    embase.write 0x800 0x42 = .error .todoReservedWrite ∧
    embase.write 0x1000 0x42 = .error .todoReservedWrite :=
  ⟨rfl, rfl, rfl⟩

/-- Test fixture: `LDA #0x05` at address 0. -/
def c7emu : Emulator := { embase with ram := [0xA9, 0x05] }

/-- Test fixture: `HLT` at address 0. -/
def c7hltemu : Emulator := { embase with ram := [0x02] }

/-- C7: the per-opcode values of the local `cycles` variable — 2 for an
immediate load, 0 for HLT (which assigns no cycle cost at all) — and the
caller-visible result of `fn emulate_cpu(&mut self)`, which carries no
cycle integer: the local is computed and then dropped.  This evaluates
the code at the claim's failing input. -/
theorem C7_cycles_are_internal_only :
    Except.map (fun p => (p.1.cpu.reg_a, p.2)) c7emu.emulate_cpu = .ok (5, 2) ∧
    Except.map (fun p => p.2) c7hltemu.emulate_cpu = .ok 0 ∧
    Except.map (fun e => e.cpu.reg_a) c7emu.emulate_cpu_ret = .ok 5 :=
  ⟨rfl, rfl, rfl⟩

/-- Test fixture for the spec's end-to-end scenario: program bytes
`[0xA9, 0x05, 0x02]` (`LDA #0x05; HLT`) at address 0 of the full-size
RAM of `Emulator::new(0x800, 0x8000, ..)`. -/
def c9emu : Emulator :=
  { embase with ram := ((embase.ram.set 0 0xA9).set 1 0x05).set 2 0x02 }

/-- C9: running the program `[0xA9, 0x05, 0x02]` from program counter 0
terminates (two loop iterations reach the halted state, and further fuel
changes nothing) with accumulator 5, `halted = true`, zero flag clear and
negative flag clear. -/
theorem C9_lda_hlt_scenario :
    Except.map
      (fun e => (e.cpu.reg_a, e.cpu.halted, e.cpu.flags.zero_flag,
        e.cpu.flags.negative_flag))
      (Emulator.runFuel 2 c9emu) = .ok (5, true, false, false) ∧
    Emulator.runFuel 5 c9emu = Emulator.runFuel 2 c9emu :=
  ⟨rfl, rfl⟩
